import Mathlib

/-!
Shallow embedding of the kea-conf-generate repository (KeaGenerator.h,
KeaGenerator.cpp and the standalone main program).  The repository is an
in-memory builder for a Kea DHCPv4 configuration document: four data
sections (interfaces, lease database, IPv4 subnets with pools, DHCP
options) composed into a `Dhcp4` block, wrapped in a `KeaConfig` root and
serialized to JSON.

Modelling conventions:
* `std::string` is `String`, compared with Lean's lexicographic order
  (the C++ code compares byte-wise; all claim-relevant strings are ASCII).
* `uint64_t` counters are `Nat` with an explicit `% 2 ^ 64` at the one
  place the code increments (`Subnet4::add_config`), since overflow there
  is observable in the claims' quantification.
* `std::unordered_map<uint64_t, Cfg>` is an association list
  `List (Nat × Cfg)`; `m[k] = v` replaces the binding in place when the
  key exists and otherwise appends, `find` scans for the first binding.
* `std::set` (of pools, of options) is a list kept strictly sorted by the
  set's comparator; `insert` is sorted insertion that keeps the existing
  element on an equivalent key (exactly `std::set::insert` semantics).
* `nlohmann::json` is the inductive `Json`; `j[key] = v` is `objInsert`,
  which replaces the value when the key is present and appends otherwise
  (a `null` json becomes a one-field object, as in nlohmann).
-/

/-- JSON values, as produced by the repository's serialization code. -/
inductive Json where
  | null : Json
  | bool : Bool → Json
  | num : Nat → Json
  | str : String → Json
  | arr : List Json → Json
  | obj : List (String × Json) → Json

/-- `fields[k] = v` on an object's field list: replace the value of the
first binding of `k`, or append the binding when `k` is absent. -/
def insertPairs : List (String × Json) → String → Json → List (String × Json)
  | [], k, v => [(k, v)]
  | (k', v') :: rest, k, v =>
    if k' = k then (k', v) :: rest else (k', v') :: insertPairs rest k v

/-- `j[k] = v` on a json value: a non-object becomes a fresh one-field
object (nlohmann converts `null` to an object on subscript assignment). -/
def objInsert (j : Json) (k : String) (v : Json) : Json :=
  match j with
  | Json.obj fields => Json.obj (insertPairs fields k v)
  | _ => Json.obj [(k, v)]

/-- The keys of a serialized object, in field order. -/
def Json.keys : Json → List String
  | Json.obj fields => fields.map Prod.fst
  | _ => []

/-- `InterfacesConfig`: the list of interface names. -/
structure InterfacesConfig where
  interfaces : List String
deriving DecidableEq

/-- `InterfacesConfig::empty`. -/
def InterfacesConfig.empty (i : InterfacesConfig) : Bool :=
  i.interfaces.isEmpty

/-- `LeaseDatabase`: lease storage backend parameters. -/
structure LeaseDatabase where
  type : String
  persist : Bool
  name : String
deriving DecidableEq

/-- `LeaseDatabase::empty`: true iff the type or the name is the empty
string. -/
def LeaseDatabase.empty (l : LeaseDatabase) : Bool :=
  l.type == "" || l.name == ""

/-- `Subnet4::Pool`: one address-range pool, ordered by its range string. -/
structure Pool where
  range : String
deriving DecidableEq

/-- The `std::set<Pool>` comparator: `operator<` compares range strings. -/
def poolLt (a b : Pool) : Prop :=
  a.range < b.range

instance : DecidableRel poolLt :=
  fun a b => inferInstanceAs (Decidable (a.range < b.range))

/-- `std::set<Pool>::insert` on a strictly `poolLt`-sorted list: sorted
insertion that keeps the existing element when an equivalent one is
present. -/
def poolInsert (p : Pool) : List Pool → List Pool
  | [] => [p]
  | q :: qs =>
    if p.range < q.range then p :: q :: qs
    else if q.range < p.range then q :: poolInsert p qs
    else q :: qs

/-- `Subnet4::Cfg`: one subnet entry. -/
structure Cfg where
  id : Nat
  subnet : String
  pools : List Pool
deriving DecidableEq

/-- `std::unordered_map::find`, returning the mapped value. -/
def mapFind : List (Nat × Cfg) → Nat → Option Cfg
  | [], _ => none
  | (k, c) :: rest, key => if k = key then some c else mapFind rest key

/-- `m[k] = v`: replace the first binding of `k` in place, or append. -/
def mapInsert : List (Nat × Cfg) → Nat → Cfg → List (Nat × Cfg)
  | [], k, v => [(k, v)]
  | (k', v') :: rest, k, v =>
    if k' = k then (k, v) :: rest else (k', v') :: mapInsert rest k v

/-- In-place update of the entry found under `k` (used for
`it->second.pools.insert` / `cfgs[cfg_id].pools.insert`). -/
def mapModify : List (Nat × Cfg) → Nat → (Cfg → Cfg) → List (Nat × Cfg)
  | [], _, _ => []
  | (k', c) :: rest, k, f =>
    if k' = k then (k', f c) :: rest else (k', c) :: mapModify rest k f

/-- `Subnet4`: id allocator plus the id-to-entry map. -/
structure Subnet4 where
  max_id : Nat
  cfgs : List (Nat × Cfg)
deriving DecidableEq

/-- `Subnet4()`: the counter starts at 1, the map is empty. -/
def Subnet4.init : Subnet4 :=
  ⟨1, []⟩

/-- `Subnet4::add_config`: store a fresh entry under the current counter
value, return that value, and increment the counter (a `uint64_t`, so the
increment wraps modulo `2 ^ 64`). -/
def Subnet4.add_config (s : Subnet4) (subnet : String) : Nat × Subnet4 :=
  let current_id := s.max_id
  (current_id,
    { max_id := (s.max_id + 1) % 2 ^ 64,
      cfgs := mapInsert s.cfgs current_id (Cfg.mk current_id subnet []) })

/-- `Subnet4::add_pool_for_cfg`: fail when the id is unknown; otherwise
insert the pool `low + " - " + high` into the found entry's pool set. -/
def Subnet4.add_pool_for_cfg (s : Subnet4) (cfg_id : Nat) (low high : String) :
    Bool × Subnet4 :=
  match mapFind s.cfgs cfg_id with
  | none => (false, s)
  | some _ =>
    let pool_range := low ++ " - " ++ high
    (true,
      { s with
        cfgs := mapModify s.cfgs cfg_id
          (fun c => { c with pools := poolInsert (Pool.mk pool_range) c.pools }) })

/-- `Subnet4::empty`. -/
def Subnet4.empty (s : Subnet4) : Bool :=
  s.cfgs.isEmpty

/-- `OptionData::Option`: one DHCP option. -/
structure OptEntry where
  name : String
  data : String
  always_send : Bool
deriving DecidableEq

/-- The `std::set<Option>` comparator: `operator<` compares names. -/
def optLt (a b : OptEntry) : Prop :=
  a.name < b.name

instance : DecidableRel optLt :=
  fun a b => inferInstanceAs (Decidable (a.name < b.name))

/-- `std::set<Option>::insert`: sorted insertion by name; an option whose
name is already present is not inserted and the existing entry is kept. -/
def optInsert (o : OptEntry) : List OptEntry → List OptEntry
  | [] => [o]
  | x :: xs =>
    if o.name < x.name then o :: x :: xs
    else if x.name < o.name then x :: optInsert o xs
    else x :: xs

/-- `OptionData`: the name-ordered option set. -/
structure OptionData where
  options : List OptEntry
deriving DecidableEq

/-- `OptionData::add_option`. -/
def OptionData.add_option (od : OptionData) (name data : String)
    (always_send : Bool) : OptionData :=
  ⟨optInsert (OptEntry.mk name data always_send) od.options⟩

/-- `OptionData::add_option_always`: delegates with `always_send = true`. -/
def OptionData.add_option_always (od : OptionData) (name data : String) :
    OptionData :=
  od.add_option name data true

/-- `OptionData::empty`. -/
def OptionData.empty (od : OptionData) : Bool :=
  od.options.isEmpty

/-- `Dhcp4`: the composed service configuration block. -/
structure Dhcp4 where
  valid_lifetime : Nat
  interface_config : InterfacesConfig
  lease_database : LeaseDatabase
  subnet4 : Subnet4
  option_data : OptionData
deriving DecidableEq

/-- The `Dhcp4` constructor: lifetime and interfaces from the caller,
lease parameters as given (the C++ defaults are `"memfile"`, `true`,
`"/var/lib/kea/dhcp4.leases"`), subnets and options start empty. -/
def Dhcp4.make (lifetime : Nat) (ifaces : List String) (lease_type : String)
    (lease_persist : Bool) (lease_name : String) : Dhcp4 :=
  { valid_lifetime := lifetime,
    interface_config := ⟨ifaces⟩,
    lease_database := ⟨lease_type, lease_persist, lease_name⟩,
    subnet4 := Subnet4.init,
    option_data := ⟨[]⟩ }

/-- `KeaConfig`: the root wrapper. -/
structure KeaConfig where
  dhcp4 : Dhcp4
deriving DecidableEq

/-- `KeaConfig()`: default Dhcp4 with lifetime 4000, interfaces
`["aaa", "bbb"]` and the C++ default lease-database arguments. -/
def KeaConfig.init : KeaConfig :=
  ⟨Dhcp4.make 4000 ["aaa", "bbb"] "memfile" true "/var/lib/kea/dhcp4.leases"⟩

/-- `to_json(InterfacesConfig)`. -/
def to_json_interfaces_config (i : InterfacesConfig) : Json :=
  Json.obj [("interfaces", Json.arr (i.interfaces.map Json.str))]

/-- `to_json(LeaseDatabase)`: three subscript assignments on an initially
null json value. -/
def to_json_lease_database (l : LeaseDatabase) : Json :=
  objInsert
    (objInsert (objInsert Json.null "type" (Json.str l.type))
      "persist" (Json.bool l.persist))
    "name" (Json.str l.name)

/-- `to_json(Subnet4::Pool)`. -/
def to_json_pool (p : Pool) : Json :=
  Json.obj [("pool", Json.str p.range)]

/-- `to_json(Subnet4::Cfg)`. -/
def to_json_cfg (c : Cfg) : Json :=
  Json.obj [("id", Json.num c.id), ("subnet", Json.str c.subnet),
    ("pools", Json.arr (c.pools.map to_json_pool))]

/-- `to_json(Subnet4)`: the entries of the map, as an array, in the map's
iteration order. -/
def to_json_subnet4 (s : Subnet4) : Json :=
  Json.arr (s.cfgs.map (fun kc => to_json_cfg kc.2))

/-- `to_json(OptionData::Option)`. -/
def to_json_option (o : OptEntry) : Json :=
  Json.obj [("name", Json.str o.name), ("data", Json.str o.data),
    ("always-send", Json.bool o.always_send)]

/-- `to_json(OptionData)`: the option set as an array, in its name order. -/
def to_json_option_data (od : OptionData) : Json :=
  Json.arr (od.options.map to_json_option)

/-- `to_json(Dhcp4)` as written in the standalone program (main.cpp): the
gated field insertion, returning early when interfaces, lease database,
subnets or options are empty. -/
def to_json_dhcp4_main (d : Dhcp4) : Json :=
  let j := Json.obj [("valid-lifetime", Json.num d.valid_lifetime)]
  if d.interface_config.empty then j
  else
    let j := objInsert j "interfaces-config" (to_json_interfaces_config d.interface_config)
    if d.lease_database.empty then j
    else
      let j := objInsert j "lease-database" (to_json_lease_database d.lease_database)
      if d.subnet4.empty then j
      else
        let j := objInsert j "subnet4" (to_json_subnet4 d.subnet4)
        if d.option_data.empty then j
        else objInsert j "option-data" (to_json_option_data d.option_data)

/-- `to_json(Dhcp4)` as written in KeaGenerator.cpp: identical gates for
interfaces, lease database and subnets, but the option-data field is
added only when non-empty, without an early return. -/
def to_json_dhcp4_impl (d : Dhcp4) : Json :=
  let j := Json.obj [("valid-lifetime", Json.num d.valid_lifetime)]
  if d.interface_config.empty then j
  else
    let j := objInsert j "interfaces-config" (to_json_interfaces_config d.interface_config)
    if d.lease_database.empty then j
    else
      let j := objInsert j "lease-database" (to_json_lease_database d.lease_database)
      if d.subnet4.empty then j
      else
        let j := objInsert j "subnet4" (to_json_subnet4 d.subnet4)
        if !d.option_data.empty then
          objInsert j "option-data" (to_json_option_data d.option_data)
        else j

/-- `to_json(KeaConfig)`: the single top-level field. -/
def to_json_keaconfig (k : KeaConfig) : Json :=
  Json.obj [("Dhcp4", to_json_dhcp4_impl k.dhcp4)]

/-- Run a sequence of `add_config` calls, collecting the returned ids. -/
def runAddConfigs (s : Subnet4) : List String → List Nat × Subnet4
  | [] => ([], s)
  | d :: ds =>
    let r := s.add_config d
    let rest := runAddConfigs r.2 ds
    (r.1 :: rest.1, rest.2)

/-- The entries a sequence of `add_config` calls appends, starting at
counter value `m`: entry `m + i` holds the `i`-th descriptor and no pools. -/
def newEntries (m : Nat) : List String → List (Nat × Cfg)
  | [] => []
  | d :: ds => (m, Cfg.mk m d []) :: newEntries (m + 1) ds

/-! ### Association-list map lemmas -/

theorem mapFind_eq_none_of_not_mem (m : List (Nat × Cfg)) (k : Nat)
    (h : k ∉ m.map Prod.fst) : mapFind m k = none := by
  induction m with
  | nil => rfl
  | cons kc rest ih =>
    obtain ⟨k', c⟩ := kc
    simp only [List.map_cons, List.mem_cons, not_or] at h
    have hne : ¬k' = k := Ne.symm h.1
    simp only [mapFind, if_neg hne]
    exact ih h.2

theorem mapModify_map_fst (m : List (Nat × Cfg)) (k : Nat) (f : Cfg → Cfg) :
    (mapModify m k f).map Prod.fst = m.map Prod.fst := by
  induction m with
  | nil => rfl
  | cons kc rest ih =>
    obtain ⟨k', c⟩ := kc
    by_cases h : k' = k
    · simp [mapModify, h]
    · simp [mapModify, h, ih]

theorem mapFind_mapModify_ne (m : List (Nat × Cfg)) (k k' : Nat) (f : Cfg → Cfg)
    (h : k' ≠ k) : mapFind (mapModify m k f) k' = mapFind m k' := by
  induction m with
  | nil => rfl
  | cons kc rest ih =>
    obtain ⟨k₀, c⟩ := kc
    by_cases h0 : k₀ = k
    · subst h0
      have hne : ¬k₀ = k' := Ne.symm h
      simp only [mapModify, if_pos rfl, mapFind, if_neg hne]
    · simp only [mapModify, if_neg h0, mapFind]
      by_cases h1 : k₀ = k'
      · simp [h1]
      · simp [h1, ih]

theorem mapFind_mapModify_self (m : List (Nat × Cfg)) (k : Nat) (f : Cfg → Cfg)
    (c : Cfg) (h : mapFind m k = some c) :
    mapFind (mapModify m k f) k = some (f c) := by
  induction m with
  | nil => simp [mapFind] at h
  | cons kc rest ih =>
    obtain ⟨k₀, c₀⟩ := kc
    by_cases h0 : k₀ = k
    · simp only [mapFind, if_pos h0] at h
      have hc : c₀ = c := by injection h
      subst hc
      simp [mapModify, mapFind, h0]
    · simp only [mapFind, if_neg h0] at h
      simp [mapModify, mapFind, h0, ih h]

theorem mapModify_eq_of_fix (m : List (Nat × Cfg)) (k : Nat) (f : Cfg → Cfg)
    (c : Cfg) (h : mapFind m k = some c) (hf : f c = c) : mapModify m k f = m := by
  induction m with
  | nil => rfl
  | cons kc rest ih =>
    obtain ⟨k₀, c₀⟩ := kc
    by_cases h0 : k₀ = k
    · simp only [mapFind, if_pos h0] at h
      have hc : c₀ = c := by injection h
      subst hc
      simp [mapModify, h0, hf]
    · simp only [mapFind, if_neg h0] at h
      simp [mapModify, h0, ih h]

theorem mapInsert_eq_append (m : List (Nat × Cfg)) (k : Nat) (v : Cfg)
    (h : k ∉ m.map Prod.fst) : mapInsert m k v = m ++ [(k, v)] := by
  induction m with
  | nil => rfl
  | cons kc rest ih =>
    obtain ⟨k', c⟩ := kc
    simp only [List.map_cons, List.mem_cons, not_or] at h
    have hne : ¬k' = k := Ne.symm h.1
    simp only [mapInsert, if_neg hne, List.cons_append]
    rw [ih h.2]

/-! ### Pool-set insertion lemmas -/

theorem mem_of_mem_poolInsert {x p : Pool} {l : List Pool}
    (h : x ∈ poolInsert p l) : x = p ∨ x ∈ l := by
  induction l with
  | nil =>
    simp only [poolInsert, List.mem_singleton] at h
    exact Or.inl h
  | cons q qs ih =>
    by_cases h1 : p.range < q.range
    · rw [poolInsert, if_pos h1] at h
      rcases List.mem_cons.mp h with h | h
      · exact Or.inl h
      · exact Or.inr h
    · by_cases h2 : q.range < p.range
      · rw [poolInsert, if_neg h1, if_pos h2] at h
        rcases List.mem_cons.mp h with h | h
        · exact Or.inr (List.mem_cons.mpr (Or.inl h))
        · rcases ih h with h | h
          · exact Or.inl h
          · exact Or.inr (List.mem_cons.mpr (Or.inr h))
      · rw [poolInsert, if_neg h1, if_neg h2] at h
        exact Or.inr h

theorem mem_poolInsert_self (p : Pool) (l : List Pool) : p ∈ poolInsert p l := by
  induction l with
  | nil =>
    rw [poolInsert]
    exact List.mem_singleton.mpr rfl
  | cons q qs ih =>
    by_cases h1 : p.range < q.range
    · rw [poolInsert, if_pos h1]
      exact List.mem_cons_self p (q :: qs)
    · by_cases h2 : q.range < p.range
      · rw [poolInsert, if_neg h1, if_pos h2]
        exact List.mem_cons.mpr (Or.inr ih)
      · have hr : p.range = q.range := le_antisymm (not_lt.mp h2) (not_lt.mp h1)
        have hp : p = q := by cases p; cases q; simpa using hr
        rw [poolInsert, if_neg h1, if_neg h2, hp]
        exact List.mem_cons_self q qs

theorem poolInsert_pairwise {p : Pool} {l : List Pool}
    (h : List.Pairwise poolLt l) : List.Pairwise poolLt (poolInsert p l) := by
  induction l with
  | nil =>
    rw [poolInsert]
    exact List.pairwise_singleton poolLt p
  | cons q qs ih =>
    rw [List.pairwise_cons] at h
    by_cases h1 : p.range < q.range
    · rw [poolInsert, if_pos h1]
      refine List.Pairwise.cons ?_ (List.Pairwise.cons h.1 h.2)
      intro x hx
      rcases List.mem_cons.mp hx with hx | hx
      · subst hx
        exact h1
      · exact lt_trans h1 (h.1 x hx)
    · by_cases h2 : q.range < p.range
      · rw [poolInsert, if_neg h1, if_pos h2]
        refine List.Pairwise.cons ?_ (ih h.2)
        intro x hx
        rcases mem_of_mem_poolInsert hx with hx | hx
        · subst hx
          exact h2
        · exact h.1 x hx
      · rw [poolInsert, if_neg h1, if_neg h2]
        exact List.Pairwise.cons h.1 h.2

theorem poolInsert_eq_of_mem {p : Pool} {l : List Pool}
    (hs : List.Pairwise poolLt l) (hm : p ∈ l) : poolInsert p l = l := by
  induction l with
  | nil => simp at hm
  | cons q qs ih =>
    rw [List.pairwise_cons] at hs
    rcases List.mem_cons.mp hm with hm | hm
    · subst hm
      rw [poolInsert, if_neg (lt_irrefl p.range), if_neg (lt_irrefl p.range)]
    · have hq : q.range < p.range := hs.1 p hm
      have h1 : ¬p.range < q.range := not_lt.mpr (le_of_lt hq)
      rw [poolInsert, if_neg h1, if_pos hq, ih hs.2 hm]


/-- C3: `add_pool_for_cfg` with an identifier that has no subnet entry
(no identifier ever returned by `add_config` stores under any other key)
returns `false` and returns the state completely unchanged. -/
theorem add_pool_for_cfg_unknown_id (s : Subnet4) (cfg_id : Nat)
    (low high : String) (h : cfg_id ∉ s.cfgs.map Prod.fst) :
    s.add_pool_for_cfg cfg_id low high = (false, s) := by
  unfold Subnet4.add_pool_for_cfg
  rw [mapFind_eq_none_of_not_mem s.cfgs cfg_id h]

/-- Witness for C3 at a concrete state: one subnet entry under id 1,
lookup of id 2 fails and mutates nothing. -/
theorem add_pool_for_cfg_unknown_id_witness :
    (Subnet4.init.add_config "192.168.10.0/24").2.add_pool_for_cfg 2
        "192.168.10.10" "192.168.10.20"
      = (false, (Subnet4.init.add_config "192.168.10.0/24").2) :=
  add_pool_for_cfg_unknown_id _ 2 "192.168.10.10" "192.168.10.20" (by decide)

/-- C10: a successful `add_pool_for_cfg` changes only the pool set of the
targeted entry: the counter, the key sequence, every other entry's
binding, and the target's id and subnet string are unchanged. -/
theorem add_pool_for_cfg_frame (s : Subnet4) (cfg_id : Nat) (low high : String)
    (c : Cfg) (hfind : mapFind s.cfgs cfg_id = some c) :
    (s.add_pool_for_cfg cfg_id low high).2.max_id = s.max_id ∧
    (s.add_pool_for_cfg cfg_id low high).2.cfgs.map Prod.fst
      = s.cfgs.map Prod.fst ∧
    (∀ k, k ≠ cfg_id →
      mapFind (s.add_pool_for_cfg cfg_id low high).2.cfgs k = mapFind s.cfgs k) ∧
    ∃ c₂, mapFind (s.add_pool_for_cfg cfg_id low high).2.cfgs cfg_id = some c₂ ∧
      c₂.id = c.id ∧ c₂.subnet = c.subnet ∧
      c₂.pools = poolInsert (Pool.mk (low ++ " - " ++ high)) c.pools := by
  unfold Subnet4.add_pool_for_cfg
  rw [hfind]
  refine ⟨rfl, mapModify_map_fst _ _ _, ?_, ?_⟩
  · intro k hk
    exact mapFind_mapModify_ne _ _ _ _ hk
  · exact ⟨_, mapFind_mapModify_self _ _ _ _ hfind, rfl, rfl, rfl⟩

/-- Witness for C10 at a concrete state with two subnet entries. -/
theorem add_pool_for_cfg_frame_witness :
    ((runAddConfigs Subnet4.init ["10.0.0.0/24", "10.0.1.0/24"]).2.add_pool_for_cfg
        1 "10.0.0.10" "10.0.0.20").2.max_id
      = (runAddConfigs Subnet4.init ["10.0.0.0/24", "10.0.1.0/24"]).2.max_id ∧
    ((runAddConfigs Subnet4.init ["10.0.0.0/24", "10.0.1.0/24"]).2.add_pool_for_cfg
        1 "10.0.0.10" "10.0.0.20").2.cfgs.map Prod.fst
      = (runAddConfigs Subnet4.init ["10.0.0.0/24", "10.0.1.0/24"]).2.cfgs.map Prod.fst ∧
    (∀ k, k ≠ 1 →
      mapFind ((runAddConfigs Subnet4.init ["10.0.0.0/24", "10.0.1.0/24"]).2.add_pool_for_cfg
          1 "10.0.0.10" "10.0.0.20").2.cfgs k
        = mapFind (runAddConfigs Subnet4.init ["10.0.0.0/24", "10.0.1.0/24"]).2.cfgs k) ∧
    ∃ c₂, mapFind ((runAddConfigs Subnet4.init ["10.0.0.0/24", "10.0.1.0/24"]).2.add_pool_for_cfg
          1 "10.0.0.10" "10.0.0.20").2.cfgs 1 = some c₂ ∧
      c₂.id = (Cfg.mk 1 "10.0.0.0/24" []).id ∧
      c₂.subnet = (Cfg.mk 1 "10.0.0.0/24" []).subnet ∧
      c₂.pools = poolInsert (Pool.mk ("10.0.0.10" ++ " - " ++ "10.0.0.20"))
        (Cfg.mk 1 "10.0.0.0/24" []).pools :=
  add_pool_for_cfg_frame _ 1 "10.0.0.10" "10.0.0.20" (Cfg.mk 1 "10.0.0.0/24" []) rfl

theorem poolLt_nodup {l : List Pool} (h : List.Pairwise poolLt l) : l.Nodup :=
  h.imp (fun hlt he => absurd (he ▸ hlt) (lt_irrefl _))

theorem add_pool_step (s : Subnet4) (cfg_id : Nat) (low high : String)
    (c : Cfg) (h : mapFind s.cfgs cfg_id = some c) :
    s.add_pool_for_cfg cfg_id low high
      = (true, Subnet4.mk s.max_id (mapModify s.cfgs cfg_id (fun c => Cfg.mk c.id c.subnet (poolInsert (Pool.mk (low ++ " - " ++ high)) c.pools)))) := by
  unfold Subnet4.add_pool_for_cfg
  rw [h]

/-- C4: on an existing identifier whose entry has a well-formed (strictly
sorted) pool set, `add_pool_for_cfg` returns `true`, stores the pool whose
range descriptor is exactly `low ++ " - " ++ high`, and is idempotent: a
second identical call also returns `true`, leaves the state unchanged, and
the descriptor occurs exactly once in the entry's pool set. -/
theorem add_pool_for_cfg_descriptor_idempotent (s : Subnet4) (cfg_id : Nat)
    (low high : String) (c : Cfg) (hfind : mapFind s.cfgs cfg_id = some c)
    (hsorted : List.Pairwise poolLt c.pools) :
    (s.add_pool_for_cfg cfg_id low high).1 = true ∧
    (∃ c₂, mapFind (s.add_pool_for_cfg cfg_id low high).2.cfgs cfg_id = some c₂ ∧
      c₂.pools.count (Pool.mk (low ++ " - " ++ high)) = 1) ∧
    ((s.add_pool_for_cfg cfg_id low high).2.add_pool_for_cfg cfg_id low high).1
      = true ∧
    ((s.add_pool_for_cfg cfg_id low high).2.add_pool_for_cfg cfg_id low high).2
      = (s.add_pool_for_cfg cfg_id low high).2 := by
  have hstep := add_pool_step s cfg_id low high c hfind
  rw [hstep]
  have hfind₁ : mapFind (mapModify s.cfgs cfg_id (fun c => Cfg.mk c.id c.subnet (poolInsert (Pool.mk (low ++ " - " ++ high)) c.pools))) cfg_id = some (Cfg.mk c.id c.subnet (poolInsert (Pool.mk (low ++ " - " ++ high)) c.pools)) :=
    mapFind_mapModify_self _ _ _ _ hfind
  have hsorted₁ : List.Pairwise poolLt
      (poolInsert (Pool.mk (low ++ " - " ++ high)) c.pools) :=
    poolInsert_pairwise hsorted
  have hstep₂ := add_pool_step
    (Subnet4.mk s.max_id (mapModify s.cfgs cfg_id (fun c => Cfg.mk c.id c.subnet (poolInsert (Pool.mk (low ++ " - " ++ high)) c.pools))))
    cfg_id low high _ hfind₁
  refine ⟨rfl, ⟨_, hfind₁, ?_⟩, ?_, ?_⟩
  · exact List.count_eq_one_of_mem (poolLt_nodup hsorted₁)
      (mem_poolInsert_self _ c.pools)
  · rw [hstep₂]
  · rw [hstep₂]
    have hfix : poolInsert (Pool.mk (low ++ " - " ++ high))
        (poolInsert (Pool.mk (low ++ " - " ++ high)) c.pools)
        = poolInsert (Pool.mk (low ++ " - " ++ high)) c.pools :=
      poolInsert_eq_of_mem hsorted₁ (mem_poolInsert_self _ c.pools)
    have hmod := mapModify_eq_of_fix
      (mapModify s.cfgs cfg_id (fun c => Cfg.mk c.id c.subnet (poolInsert (Pool.mk (low ++ " - " ++ high)) c.pools)))
      cfg_id
      (fun c => Cfg.mk c.id c.subnet (poolInsert (Pool.mk (low ++ " - " ++ high)) c.pools))
      _ hfind₁ (by simp [hfix])
    simp [hmod]

/-- Witness for C4 at a concrete state: one subnet entry, one pool added
twice. -/
theorem add_pool_for_cfg_descriptor_idempotent_witness :
    ((Subnet4.init.add_config "192.168.50.0/24").2.add_pool_for_cfg 1
        "192.168.50.10" "192.168.50.20").1 = true ∧
    (∃ c₂, mapFind ((Subnet4.init.add_config "192.168.50.0/24").2.add_pool_for_cfg 1
          "192.168.50.10" "192.168.50.20").2.cfgs 1 = some c₂ ∧
      c₂.pools.count (Pool.mk ("192.168.50.10" ++ " - " ++ "192.168.50.20")) = 1) ∧
    (((Subnet4.init.add_config "192.168.50.0/24").2.add_pool_for_cfg 1
          "192.168.50.10" "192.168.50.20").2.add_pool_for_cfg 1
        "192.168.50.10" "192.168.50.20").1 = true ∧
    (((Subnet4.init.add_config "192.168.50.0/24").2.add_pool_for_cfg 1
          "192.168.50.10" "192.168.50.20").2.add_pool_for_cfg 1
        "192.168.50.10" "192.168.50.20").2
      = ((Subnet4.init.add_config "192.168.50.0/24").2.add_pool_for_cfg 1
          "192.168.50.10" "192.168.50.20").2 :=
  add_pool_for_cfg_descriptor_idempotent _ 1 "192.168.50.10" "192.168.50.20"
    (Cfg.mk 1 "192.168.50.0/24" []) rfl (List.Pairwise.nil)

/-! ### add_config sequences -/

theorem newEntries_entries (ds : List String) (m : Nat) :
    ∀ kc ∈ newEntries m ds, kc.2.id = kc.1 ∧ kc.2.pools = [] := by
  induction ds generalizing m with
  | nil => simp [newEntries]
  | cons d rest ih =>
    intro kc hkc
    rcases List.mem_cons.mp hkc with h | h
    · subst h
      exact ⟨rfl, rfl⟩
    · exact ih (m + 1) kc h

theorem runAddConfigs_no_wrap (ds : List String) (s : Subnet4)
    (hkeys : ∀ k ∈ s.cfgs.map Prod.fst, k < s.max_id)
    (hbound : s.max_id + ds.length ≤ 2 ^ 64) :
    (runAddConfigs s ds).1 = List.range' s.max_id ds.length ∧
    (runAddConfigs s ds).2.cfgs = s.cfgs ++ newEntries s.max_id ds := by
  induction ds generalizing s with
  | nil => simp [runAddConfigs, newEntries]
  | cons d rest ih =>
    have hins : mapInsert s.cfgs s.max_id (Cfg.mk s.max_id d [])
        = s.cfgs ++ [(s.max_id, Cfg.mk s.max_id d [])] :=
      mapInsert_eq_append _ _ _ (fun hmem => lt_irrefl _ (hkeys _ hmem))
    simp only [List.length_cons] at hbound
    rcases Nat.lt_or_ge (s.max_id + 1) (2 ^ 64) with hW | hW
    · have hmod : (s.max_id + 1) % 2 ^ 64 = s.max_id + 1 := Nat.mod_eq_of_lt hW
      have hkeys' : ∀ k ∈ (s.cfgs ++ [(s.max_id, Cfg.mk s.max_id d [])]).map Prod.fst,
          k < s.max_id + 1 := by
        intro k hk
        rw [List.map_append, List.mem_append] at hk
        rcases hk with hk | hk
        · exact lt_trans (hkeys k hk) (Nat.lt_succ_self _)
        · simp at hk
          omega
      have hbound' : (s.max_id + 1) + rest.length ≤ 2 ^ 64 := by omega
      have ihr := ih (Subnet4.mk (s.max_id + 1)
        (s.cfgs ++ [(s.max_id, Cfg.mk s.max_id d [])])) hkeys' hbound'
      simp only [runAddConfigs, Subnet4.add_config, hins, hmod, List.length_cons]
      refine ⟨?_, ?_⟩
      · rw [List.range'_succ]
        exact congrArg (s.max_id :: ·) ihr.1
      · rw [ihr.2, newEntries, List.append_assoc]
        rfl
    · have hmax : s.max_id + 1 = 2 ^ 64 := by omega
      have hrest : rest = [] := by
        have : rest.length = 0 := by omega
        exact List.length_eq_zero.mp this
      subst hrest
      simp only [runAddConfigs, Subnet4.add_config, hins, List.length_cons,
        List.length_nil]
      constructor
      · rw [List.range'_succ]
        rfl
      · rw [newEntries]
        rfl

theorem runAddConfigs_ids_mod (ds : List String) (s : Subnet4)
    (h : s.max_id < 2 ^ 64) :
    (runAddConfigs s ds).1
      = (List.range ds.length).map (fun k => (s.max_id + k) % 2 ^ 64) := by
  induction ds generalizing s with
  | nil => simp [runAddConfigs]
  | cons d rest ih =>
    have hpos : 0 < 2 ^ 64 := by positivity
    have hm' : (s.max_id + 1) % 2 ^ 64 < 2 ^ 64 := Nat.mod_lt _ hpos
    simp only [runAddConfigs, List.length_cons, List.range_succ_eq_map,
      List.map_cons, List.map_map, List.cons.injEq]
    refine ⟨?_, ?_⟩
    · simp only [Subnet4.add_config]
      omega
    · rw [ih _ hm']
      refine List.map_congr_left (fun k _ => ?_)
      show ((s.max_id + 1) % 2 ^ 64 + k) % 2 ^ 64
        = (s.max_id + Nat.succ k) % 2 ^ 64
      rw [Nat.mod_add_mod]
      congr 1
      omega

/-- C2 (amended): for every sequence of fewer than `2 ^ 64` calls to
`add_config` on a freshly constructed `Subnet4`, the returned identifiers
are exactly `1, 2, 3, ...` in call order, and each call stores a new
subnet entry under the returned identifier whose pool set is empty; the
call never fails.  The length bound is forced by the 64-bit counter: at
`2 ^ 64` calls the counter wraps. -/
theorem add_config_ids_seq (ds : List String) (h : ds.length < 2 ^ 64) :
    (runAddConfigs Subnet4.init ds).1 = List.range' 1 ds.length ∧
    (runAddConfigs Subnet4.init ds).2.cfgs = newEntries 1 ds ∧
    ∀ kc ∈ (runAddConfigs Subnet4.init ds).2.cfgs,
      kc.2.id = kc.1 ∧ kc.2.pools = [] := by
  have hmain := runAddConfigs_no_wrap ds Subnet4.init
    (by simp [Subnet4.init]) (by simp only [Subnet4.init]; omega)
  refine ⟨hmain.1, by simpa [Subnet4.init] using hmain.2, ?_⟩
  intro kc hkc
  rw [hmain.2] at hkc
  simp only [Subnet4.init, List.nil_append] at hkc
  exact newEntries_entries ds 1 kc hkc

/-- Witness for C2 at two concrete calls: ids `[1, 2]`, entries stored
with empty pools. -/
theorem add_config_ids_seq_witness :
    (runAddConfigs Subnet4.init ["10.0.0.0/24", "10.0.1.0/24"]).1
      = List.range' 1 ["10.0.0.0/24", "10.0.1.0/24"].length ∧
    (runAddConfigs Subnet4.init ["10.0.0.0/24", "10.0.1.0/24"]).2.cfgs
      = newEntries 1 ["10.0.0.0/24", "10.0.1.0/24"] ∧
    ∀ kc ∈ (runAddConfigs Subnet4.init ["10.0.0.0/24", "10.0.1.0/24"]).2.cfgs,
      kc.2.id = kc.1 ∧ kc.2.pools = [] :=
  add_config_ids_seq ["10.0.0.0/24", "10.0.1.0/24"] (by norm_num)

/-- Counterexample to C2 as stated: at the concrete input of exactly
`2 ^ 64` calls the identifiers are not `1, ..., 2 ^ 64` — the `uint64_t`
counter wraps and the last returned identifier is `0`. -/
theorem add_config_ids_wrap_cex :
    ¬((runAddConfigs Subnet4.init (List.replicate (2 ^ 64) "10.0.0.0/8")).1
        = List.range' 1 (List.replicate (2 ^ 64) "10.0.0.0/8").length) := by
  intro hcl
  rw [runAddConfigs_ids_mod _ _ (by simp only [Subnet4.init]; omega)] at hcl
  simp only [List.length_replicate] at hcl
  have h0 : (0 : Nat)
      ∈ (List.range (2 ^ 64)).map (fun k => (Subnet4.init.max_id + k) % 2 ^ 64) := by
    refine List.mem_map.mpr ⟨2 ^ 64 - 1, List.mem_range.mpr (by omega), ?_⟩
    simp only [Subnet4.init]
    omega
  rw [hcl] at h0
  have h1 := List.mem_range'_1.mp h0
  omega

/-! ### Option-set insertion lemmas -/

theorem mem_of_mem_optInsert {x o : OptEntry} {l : List OptEntry}
    (h : x ∈ optInsert o l) : x = o ∨ x ∈ l := by
  induction l with
  | nil =>
    simp only [optInsert, List.mem_singleton] at h
    exact Or.inl h
  | cons q qs ih =>
    by_cases h1 : o.name < q.name
    · rw [optInsert, if_pos h1] at h
      rcases List.mem_cons.mp h with h | h
      · exact Or.inl h
      · exact Or.inr h
    · by_cases h2 : q.name < o.name
      · rw [optInsert, if_neg h1, if_pos h2] at h
        rcases List.mem_cons.mp h with h | h
        · exact Or.inr (List.mem_cons.mpr (Or.inl h))
        · rcases ih h with h | h
          · exact Or.inl h
          · exact Or.inr (List.mem_cons.mpr (Or.inr h))
      · rw [optInsert, if_neg h1, if_neg h2] at h
        exact Or.inr h

theorem optInsert_sorted {o : OptEntry} {l : List OptEntry}
    (h : List.Sorted optLt l) : List.Sorted optLt (optInsert o l) := by
  induction l with
  | nil =>
    rw [optInsert]
    exact List.sorted_singleton o
  | cons q qs ih =>
    rw [List.sorted_cons] at h
    by_cases h1 : o.name < q.name
    · rw [optInsert, if_pos h1]
      rw [List.sorted_cons]
      refine ⟨?_, List.sorted_cons.mpr h⟩
      intro x hx
      rcases List.mem_cons.mp hx with hx | hx
      · subst hx
        exact h1
      · exact lt_trans h1 (h.1 x hx)
    · by_cases h2 : q.name < o.name
      · rw [optInsert, if_neg h1, if_pos h2]
        rw [List.sorted_cons]
        refine ⟨?_, ih h.2⟩
        intro x hx
        rcases mem_of_mem_optInsert hx with hx | hx
        · subst hx
          exact h2
        · exact h.1 x hx
      · rw [optInsert, if_neg h1, if_neg h2]
        exact List.sorted_cons.mpr h

theorem optInsert_eq_of_mem_name {o : OptEntry} {l : List OptEntry}
    (hs : List.Sorted optLt l) (hm : o.name ∈ l.map OptEntry.name) :
    optInsert o l = l := by
  induction l with
  | nil => simp at hm
  | cons q qs ih =>
    rw [List.sorted_cons] at hs
    rw [List.map_cons, List.mem_cons] at hm
    rcases hm with hm | hm
    · rw [optInsert, if_neg (hm ▸ lt_irrefl o.name), if_neg (hm ▸ lt_irrefl o.name)]
    · obtain ⟨x, hx, hxn⟩ := List.mem_map.mp hm
      have hq : q.name < o.name := hxn ▸ hs.1 x hx
      have h1 : ¬o.name < q.name := not_lt.mpr (le_of_lt hq)
      rw [optInsert, if_neg h1, if_pos hq, ih hs.2 (List.mem_map.mpr ⟨x, hx, hxn⟩)]

theorem optInsert_perm {o : OptEntry} {l : List OptEntry}
    (h : o.name ∉ l.map OptEntry.name) : (optInsert o l).Perm (o :: l) := by
  induction l with
  | nil => rw [optInsert]
  | cons q qs ih =>
    rw [List.map_cons, List.mem_cons, not_or] at h
    by_cases h1 : o.name < q.name
    · rw [optInsert, if_pos h1]
    · have h2 : q.name < o.name := by
        rcases lt_trichotomy o.name q.name with ht | ht | ht
        · exact absurd ht h1
        · exact absurd ht h.1
        · exact ht
      rw [optInsert, if_neg h1, if_pos h2]
      exact ((ih h.2).cons q).trans (List.Perm.swap o q qs)

/-- C5: calling `add_option` with a name that is already present (whatever
the new data and flag) leaves the option set completely unchanged — the
stored entry keeps its data and always-send flag — and `add_option_always`
is exactly `add_option` with the flag `true`. -/
theorem add_option_first_write_wins (od : OptionData) (n d : String) (a : Bool)
    (hs : List.Sorted optLt od.options)
    (hmem : n ∈ od.options.map OptEntry.name) :
    od.add_option n d a = od ∧
    od.add_option_always n d = od.add_option n d true := by
  refine ⟨?_, rfl⟩
  unfold OptionData.add_option
  rw [optInsert_eq_of_mem_name hs hmem]

/-- Witness for C5: re-adding the name `routers` with different data and
flag changes nothing. -/
theorem add_option_first_write_wins_witness :
    (OptionData.mk [OptEntry.mk "routers" "10.0.0.1" false]).add_option
        "routers" "9.9.9.9" true
      = OptionData.mk [OptEntry.mk "routers" "10.0.0.1" false] ∧
    (OptionData.mk [OptEntry.mk "routers" "10.0.0.1" false]).add_option_always
        "routers" "9.9.9.9"
      = (OptionData.mk [OptEntry.mk "routers" "10.0.0.1" false]).add_option
        "routers" "9.9.9.9" true :=
  add_option_first_write_wins _ "routers" "9.9.9.9" true
    (List.sorted_singleton _) (by simp)

/-- The option entry built from one `add_option` argument triple. -/
def toEntry (t : String × String × Bool) : OptEntry :=
  OptEntry.mk t.1 t.2.1 t.2.2

/-- Run a sequence of `add_option` calls. -/
def addAll (od : OptionData) : List (String × String × Bool) → OptionData
  | [] => od
  | t :: ts => addAll (od.add_option t.1 t.2.1 t.2.2) ts

theorem addAll_sorted (ts : List (String × String × Bool)) (od : OptionData)
    (h : List.Sorted optLt od.options) :
    List.Sorted optLt (addAll od ts).options := by
  induction ts generalizing od with
  | nil => exact h
  | cons t rest ih => exact ih _ (optInsert_sorted h)

theorem addAll_perm (ts : List (String × String × Bool)) (od : OptionData)
    (hdisj : ∀ t ∈ ts, t.1 ∉ od.options.map OptEntry.name)
    (hnd : (ts.map Prod.fst).Nodup) :
    (addAll od ts).options.Perm (od.options ++ ts.map toEntry) := by
  induction ts generalizing od with
  | nil => simp [addAll]
  | cons t rest ih =>
    have hperm₀ : (optInsert (toEntry t) od.options).Perm (toEntry t :: od.options) :=
      optInsert_perm (hdisj t (List.mem_cons_self t rest))
    rw [List.map_cons, List.nodup_cons] at hnd
    have hdisj' : ∀ u ∈ rest,
        u.1 ∉ (od.add_option t.1 t.2.1 t.2.2).options.map OptEntry.name := by
      intro u hu hmem
      rcases List.mem_cons.mp ((hperm₀.map OptEntry.name).mem_iff.mp hmem)
        with hmem | hmem
      · exact hnd.1 (List.mem_map.mpr ⟨u, hu, hmem⟩)
      · exact hdisj u (List.mem_cons.mpr (Or.inr hu)) hmem
    have ihr := ih (od.add_option t.1 t.2.1 t.2.2) hdisj' hnd.2
    refine ihr.trans ?_
    refine (hperm₀.append_right (rest.map toEntry)).trans ?_
    rw [List.map_cons]
    exact List.perm_middle.symm

/-- C6: options rendered by `to_json(OptionData)` are in strictly
ascending lexicographic name order, and for pairwise distinct names the
serialized array is independent of the order in which the options were
added. -/
theorem option_data_to_json_sorted_perm (l₁ l₂ : List (String × String × Bool))
    (hperm : l₁.Perm l₂) (hnd : (l₁.map Prod.fst).Nodup) :
    List.Sorted optLt (addAll (OptionData.mk []) l₁).options ∧
    to_json_option_data (addAll (OptionData.mk []) l₁)
      = to_json_option_data (addAll (OptionData.mk []) l₂) := by
  have hs₁ : List.Sorted optLt (addAll (OptionData.mk []) l₁).options :=
    addAll_sorted l₁ _ (List.sorted_nil)
  have hs₂ : List.Sorted optLt (addAll (OptionData.mk []) l₂).options :=
    addAll_sorted l₂ _ (List.sorted_nil)
  have hnd₂ : (l₂.map Prod.fst).Nodup := ((hperm.map Prod.fst).nodup_iff).mp hnd
  have hp₁ := addAll_perm l₁ (OptionData.mk []) (by simp) hnd
  have hp₂ := addAll_perm l₂ (OptionData.mk []) (by simp) hnd₂
  have hopt : (addAll (OptionData.mk []) l₁).options.Perm
      ((addAll (OptionData.mk []) l₂).options) := by
    refine (hp₁.trans ?_).trans hp₂.symm
    simpa using hperm.map toEntry
  haveI : IsAntisymm OptEntry optLt := ⟨fun a b h1 h2 => absurd h2 (lt_asymm h1)⟩
  have heq : (addAll (OptionData.mk []) l₁).options
      = (addAll (OptionData.mk []) l₂).options :=
    List.eq_of_perm_of_sorted hopt hs₁ hs₂
  have hod : addAll (OptionData.mk []) l₁ = addAll (OptionData.mk []) l₂ := by
    have h1 : addAll (OptionData.mk []) l₁
        = OptionData.mk (addAll (OptionData.mk []) l₁).options := rfl
    have h2 : addAll (OptionData.mk []) l₂
        = OptionData.mk (addAll (OptionData.mk []) l₂).options := rfl
    rw [h1, h2, heq]
  exact ⟨hs₁, congrArg to_json_option_data hod⟩

/-- Witness for C6: the two options of the spec's Scenario B added in both
orders produce the same serialized array. -/
theorem option_data_to_json_sorted_perm_witness :
    List.Sorted optLt (addAll (OptionData.mk [])
      [("routers", "192.168.50.1", false),
       ("domain-name-servers", "192.168.50.1, 8.8.8.8", true)]).options ∧
    to_json_option_data (addAll (OptionData.mk [])
      [("routers", "192.168.50.1", false),
       ("domain-name-servers", "192.168.50.1, 8.8.8.8", true)])
      = to_json_option_data (addAll (OptionData.mk [])
        [("domain-name-servers", "192.168.50.1, 8.8.8.8", true),
         ("routers", "192.168.50.1", false)]) :=
  option_data_to_json_sorted_perm
    [("routers", "192.168.50.1", false),
     ("domain-name-servers", "192.168.50.1, 8.8.8.8", true)]
    [("domain-name-servers", "192.168.50.1, 8.8.8.8", true),
     ("routers", "192.168.50.1", false)]
    (by decide) (by decide)

/-! ### Dhcp4 serialization claims -/

/-- C1: `to_json(Dhcp4)` is gated and truncating — `"valid-lifetime"` is
always present; an empty interface list leaves only that field; otherwise
an empty lease database (empty type or name string) stops after
`"interfaces-config"`; otherwise zero subnet entries stop after
`"lease-database"`; otherwise `"subnet4"` is added (with `"option-data"`
appended exactly when options exist). -/
theorem dhcp4_to_json_keys_gated (d : Dhcp4) :
    Json.keys (to_json_dhcp4_impl d) =
      if d.interface_config.empty then ["valid-lifetime"]
      else if d.lease_database.empty then ["valid-lifetime", "interfaces-config"]
      else if d.subnet4.empty then
        ["valid-lifetime", "interfaces-config", "lease-database"]
      else if d.option_data.empty then
        ["valid-lifetime", "interfaces-config", "lease-database", "subnet4"]
      else
        ["valid-lifetime", "interfaces-config", "lease-database", "subnet4",
          "option-data"] := by
  simp only [to_json_dhcp4_impl]
  by_cases h1 : d.interface_config.empty = true
  · simp only [h1, if_true]
    rfl
  · simp only [h1, if_false, Bool.not_eq_true]
    by_cases h2 : d.lease_database.empty = true
    · simp only [h2, if_true]
      rfl
    · simp only [h2, if_false, Bool.not_eq_true]
      by_cases h3 : d.subnet4.empty = true
      · simp only [h3, if_true]
        rfl
      · simp only [h3, if_false, Bool.not_eq_true]
        by_cases h4 : d.option_data.empty = true
        · simp only [h4, Bool.not_true, if_true, if_false]
          rfl
        · simp only [h4, Bool.not_false, if_true, if_false]
          rfl

/-- C7: with non-empty interfaces, lease database and subnets but zero
options, `to_json(Dhcp4)` produces exactly the four fields
`valid-lifetime`, `interfaces-config`, `lease-database`, `subnet4` — an
empty `OptionData` does not abort serialization, the field is only
omitted. -/
theorem dhcp4_to_json_no_option_data (d : Dhcp4)
    (h1 : d.interface_config.empty = false)
    (h2 : d.lease_database.empty = false)
    (h3 : d.subnet4.empty = false)
    (h4 : d.option_data.empty = true) :
    Json.keys (to_json_dhcp4_impl d)
      = ["valid-lifetime", "interfaces-config", "lease-database", "subnet4"] := by
  simp only [to_json_dhcp4_impl, h1, h2, h3, h4, Bool.not_true, Bool.false_eq_true,
    if_false, if_true]
  rfl

/-- The concrete `Dhcp4` of the spec's Scenario C: interfaces, default
lease database and one subnet, zero options. -/
def dhcp4ScenarioC : Dhcp4 :=
  { Dhcp4.make 7200 ["enp0s1"] "memfile" true "/var/lib/kea/dhcp4.leases" with
    subnet4 := (Subnet4.init.add_config "192.168.50.0/24").2 }

/-- Witness for C7 at Scenario C. -/
theorem dhcp4_to_json_no_option_data_witness :
    Json.keys (to_json_dhcp4_impl dhcp4ScenarioC)
      = ["valid-lifetime", "interfaces-config", "lease-database", "subnet4"] :=
  dhcp4_to_json_no_option_data dhcp4ScenarioC rfl rfl rfl rfl

/-- C8: `to_json(KeaConfig)` is the single-field object `"Dhcp4"` holding
the serialized block, and the default-constructed `KeaConfig` carries
lifetime 4000, interfaces `["aaa", "bbb"]` and the default lease database
(`memfile`, persist, `/var/lib/kea/dhcp4.leases`). -/
theorem kea_config_to_json_root (k : KeaConfig) :
    to_json_keaconfig k = Json.obj [("Dhcp4", to_json_dhcp4_impl k.dhcp4)] ∧
    KeaConfig.init.dhcp4.valid_lifetime = 4000 ∧
    KeaConfig.init.dhcp4.interface_config.interfaces = ["aaa", "bbb"] ∧
    KeaConfig.init.dhcp4.lease_database.type = "memfile" ∧
    KeaConfig.init.dhcp4.lease_database.persist = true ∧
    KeaConfig.init.dhcp4.lease_database.name = "/var/lib/kea/dhcp4.leases" ∧
    KeaConfig.init.dhcp4.subnet4 = Subnet4.init ∧
    KeaConfig.init.dhcp4.option_data = OptionData.mk [] :=
  ⟨rfl, rfl, rfl, rfl, rfl, rfl, rfl, rfl⟩

/-- C9: the standalone program's `to_json(Dhcp4)` and the KeaGenerator.cpp
one agree on every input: the only textual difference is the handling of
empty options (early return before adding the field versus skipping the
field), and both leave the field out exactly then. -/
theorem dhcp4_to_json_versions_agree (d : Dhcp4) :
    to_json_dhcp4_main d = to_json_dhcp4_impl d := by
  simp only [to_json_dhcp4_main, to_json_dhcp4_impl]
  by_cases h4 : d.option_data.empty = true <;> simp [h4]
